import Mathlib

/-!
Verification of the Pill-O-Tron dosage-schedule engine (pill-o-tron.py).

The embedding below mirrors the Python source:

* `generate_partitions` — the recursive composition generator.
* `fraction_to_dosage_string` — the per-dosage symbol encoder
  (Python `Fraction` values are embedded as `ℚ`; Python's `str(Fraction)`
  prints `num/den`, or just `num` when the denominator is 1).
* `DosageSchedule` — the NamedTuple holding a dosage list and a count tuple,
  with its derived quantities `period`, `mean`, `variance` and the string
  encoding.  Python computes `mean`/`stddev` in floating point; the embedding
  uses exact rational arithmetic, and `stddev = sqrt variance` appears in
  statements as `Real.sqrt` of the rational variance (the square root is
  strictly monotone on nonnegative reals, so equality/minimality comparisons
  of standard deviations coincide with those of variances).
  Python's `mean`/`stddev` raise `ZeroDivisionError` when the period is 0;
  `mean?`/`variance?` model that partiality, while the total `mean`/`variance`
  are used where the period is provably positive.
* `all_schedules`, `schedules_by_mean`, `reachable_means`, `select_group`,
  `select_all`, `optimal_schedules` — the enumeration / grouping / pruning
  pipeline of `main` (lines 148-198).  Python groups schedules in a dict
  keyed by mean and sorts the keys; the embedding filters by mean and sorts
  the deduplicated mean list, which yields the same groups in the same order.
  The `RuntimeError` raised when a group does not reduce to exactly one
  schedule is modelled with `Except.error` carrying the source's message.
-/

/-- Embedding of `generate_partitions` (pill-o-tron.py lines 24-45):
for `num_stacks = 0` return `[[]]` when `total = 0` and `[]` otherwise;
for `num_stacks + 1`, for each candidate `last_stack` from `0` to `total`,
recursively generate the partitions of `total - last_stack` over the
remaining stacks and append `last_stack`. -/
def generate_partitions : Nat → Nat → List (List Nat)
  | 0, 0 => [[]]
  | 0, _ + 1 => []
  | num_stacks + 1, total =>
    (List.range (total + 1)).flatMap (fun last_stack =>
      (generate_partitions num_stacks (total - last_stack)).map
        (fun stacks_before => stacks_before ++ [last_stack]))

/-- Python's `str` on a `Fraction`: `num/den`, or just `num` when the
denominator is 1. -/
def fraction_str (q : ℚ) : String :=
  if q.den = 1 then toString q.num else toString q.num ++ "/" ++ toString q.den

/-- Embedding of `fraction_to_dosage_string` (lines 48-64): single-digit
integer doses print as the digit, `1/2 ↦ "h"`, `1/4 ↦ "k"`, `3/2 ↦ "a"`,
and every other dosage prints inside parentheses. -/
def fraction_to_dosage_string (dosage : ℚ) : String :=
  if dosage.den = 1 ∧ 0 ≤ dosage.num ∧ dosage.num ≤ 9 then
    toString dosage.num
  else if dosage = 1/2 then
    "h"
  else if dosage = 1/4 then
    "k"
  else if dosage = 3/2 then
    "a"
  else
    "(" ++ fraction_str dosage ++ ")"

/-- Python's `count * spec` string repetition. -/
def repeat_string : Nat → String → String
  | 0, _ => ""
  | n + 1, str => str ++ repeat_string n str

/-- Embedding of the `DosageSchedule` NamedTuple (lines 70-97).  The Python
constructor is the plain NamedTuple constructor: it accepts any pair of
fields and performs no validation whatsoever. -/
structure DosageSchedule where
  possible_dosages : List ℚ
  counts : List Nat
deriving DecidableEq, Repr

/-- Embedding of `DosageSchedule.period` (lines 76-78): the sum of the counts. -/
def DosageSchedule.period (s : DosageSchedule) : Nat := s.counts.sum

/-- Embedding of `DosageSchedule.mean` (lines 80-82):
`sum(dosage * count for (dosage, count) in zip(...)) / period`.  Python's
`zip` truncates to the shorter list, hence `List.zip`. -/
def DosageSchedule.mean (s : DosageSchedule) : ℚ :=
  ((s.possible_dosages.zip s.counts).map (fun p => p.1 * (p.2 : ℚ))).sum
    / (s.period : ℚ)

/-- Partiality of `mean`: Python raises `ZeroDivisionError` when `period = 0`. -/
def DosageSchedule.mean? (s : DosageSchedule) : Option ℚ :=
  if s.period = 0 then none else some s.mean

/-- Embedding of the variance computed inside `DosageSchedule.stddev`
(lines 84-88): `sum((dosage - mean) ** 2 * count for ...) / period`.
The Python method returns `math.sqrt` of this value; statements below write
that square root as `Real.sqrt` of the (exact) variance. -/
def DosageSchedule.variance (s : DosageSchedule) : ℚ :=
  ((s.possible_dosages.zip s.counts).map
      (fun p => (p.1 - s.mean) ^ 2 * (p.2 : ℚ))).sum
    / (s.period : ℚ)

/-- Partiality of `stddev`: Python raises `ZeroDivisionError` when `period = 0`. -/
def DosageSchedule.variance? (s : DosageSchedule) : Option ℚ :=
  if s.period = 0 then none else some s.variance

/-- Embedding of `DosageSchedule.schedule_as_string` (lines 90-97): for every
`(dosage, count)` pair with a non-zero count, emit the dosage symbol repeated
`count` times, and concatenate. -/
def DosageSchedule.schedule_as_string (s : DosageSchedule) : String :=
  String.join
    (((s.possible_dosages.zip s.counts).filter (fun p => p.2 ≠ 0)).map
      (fun p => repeat_string p.2 (fraction_to_dosage_string p.1)))

/-- Construction of a `DosageSchedule` as the source performs it: the
NamedTuple constructor (lines 70-74) accepts any `(possible_dosages, counts)`
pair and never fails, so the result is always `Except.ok`. -/
def DosageSchedule.construct (pd : List ℚ) (counts : List Nat) :
    Except String DosageSchedule :=
  Except.ok ⟨pd, counts⟩

/-- Modelled from the spec: the Schedule-Model contract of spec section 4.2
demands a constructor that fails fast with an `InvalidSchedule` condition
when the composition's length disagrees with the dosage set's cardinality.
No such check exists anywhere in pill-o-tron.py; this definition renders the
spec's words so they can be compared with `DosageSchedule.construct`. -/
def DosageSchedule.construct_checked_spec (pd : List ℚ) (counts : List Nat) :
    Except String DosageSchedule :=
  if counts.length = pd.length then Except.ok ⟨pd, counts⟩
  else Except.error "InvalidSchedule"

/-- Embedding of the enumeration loop (lines 152-155): for every period from
1 through `max_period`, one schedule per generated partition. -/
def all_schedules (possible_dosages : List ℚ) (max_period : Nat) :
    List DosageSchedule :=
  (List.range' 1 max_period).flatMap (fun period =>
    (generate_partitions possible_dosages.length period).map
      (fun partition => ⟨possible_dosages, partition⟩))

/-- The group of enumerated schedules whose mean equals `m` (lines 163-171):
Python's insertion-ordered dict of lists keyed by mean contains, at key `m`,
exactly the enumerated schedules with mean `m`, in enumeration order. -/
def schedules_by_mean (pd : List ℚ) (mp : Nat) (m : ℚ) : List DosageSchedule :=
  (all_schedules pd mp).filter (fun s => s.mean = m)

/-- Embedding of `means_reachable = sorted(schedules_by_mean)` (line 175):
the distinct means of the enumerated schedules, in ascending order. -/
def reachable_means (pd : List ℚ) (mp : Nat) : List ℚ :=
  List.insertionSort (· ≤ ·) (((all_schedules pd mp).map DosageSchedule.mean).dedup)

/-- Embedding of the per-group pruning (lines 185-191): keep the schedules
whose standard deviation attains the group minimum, then among those keep the
ones whose period attains the minimum.  Python compares `stddev()` values;
since `stddev = sqrt variance` and the square root is injective and monotone
on nonnegative reals, comparing variances is the same comparison.  Python's
`min` raises on an empty sequence; the `none` branches (empty group) return
`[]` and are never reached by the pipeline, whose groups are nonempty. -/
def select_group (g : List DosageSchedule) : List DosageSchedule :=
  ((g.map DosageSchedule.variance).min?).elim []
    (fun min_var =>
      (((g.filter (fun s => s.variance = min_var)).map
          DosageSchedule.period).min?).elim []
        (fun min_period =>
          (g.filter (fun s => s.variance = min_var)).filter
            (fun s => s.period = min_period)))

/-- Embedding of the selection loop over the reachable means (lines 181-198):
process the means in order; a group whose pruned form is not a single
schedule raises `RuntimeError` (modelled as `Except.error` with the source's
message), aborting the whole computation with no partial result. -/
def select_all (groups : ℚ → List DosageSchedule) :
    List ℚ → Except String (List DosageSchedule)
  | [] => Except.ok []
  | m :: rest =>
    match select_group (groups m) with
    | [s] =>
      match select_all groups rest with
      | Except.ok l => Except.ok (s :: l)
      | Except.error e => Except.error e
    | _ => Except.error
        "Found multiple dosage schedules with the same stdandard deviation and period."

/-- The complete engine of `main` (lines 148-198): enumerate, group by mean,
prune each group, and return the optimal schedules in ascending-mean order. -/
def optimal_schedules (pd : List ℚ) (mp : Nat) :
    Except String (List DosageSchedule) :=
  select_all (schedules_by_mean pd mp) (reachable_means pd mp)

/- ### Basic facts about `generate_partitions` -/

/-- Soundness: every generated list has length `num_stacks` and sum `total`. -/
theorem generate_partitions_sound (n : Nat) :
    ∀ t l, l ∈ generate_partitions n t → l.length = n ∧ l.sum = t := by
  induction n with
  | zero =>
    intro t l hl
    cases t with
    | zero => simp only [generate_partitions, List.mem_singleton] at hl; simp [hl]
    | succ t => simp [generate_partitions] at hl
  | succ n ih =>
    intro t l hl
    simp only [generate_partitions, List.mem_flatMap, List.mem_map,
      List.mem_range] at hl
    obtain ⟨last, hlast, p, hp, rfl⟩ := hl
    obtain ⟨hlen, hsum⟩ := ih (t - last) p hp
    have hle : last ≤ t := Nat.lt_succ_iff.mp hlast
    constructor
    · simp [hlen]
    · simp [hsum, Nat.sub_add_cancel hle]

/-- Completeness: every list of the right length and sum is generated. -/
theorem generate_partitions_complete (n : Nat) :
    ∀ t l, l.length = n → l.sum = t → l ∈ generate_partitions n t := by
  induction n with
  | zero =>
    intro t l hlen hsum
    rw [List.length_eq_zero] at hlen
    subst hlen
    simp at hsum
    subst hsum
    simp [generate_partitions]
  | succ n ih =>
    intro t l hlen hsum
    have hne : l ≠ [] := by
      intro h
      rw [h] at hlen
      simp at hlen
    set last := l.getLast hne with hlastdef
    have hdecomp : l.dropLast ++ [last] = l := List.dropLast_append_getLast hne
    have hsum2 : l.dropLast.sum + last = t := by
      have h3 := congrArg List.sum hdecomp
      simp only [List.sum_append, List.sum_cons, List.sum_nil, Nat.add_zero] at h3
      omega
    have hle : last ≤ t := by omega
    simp only [generate_partitions, List.mem_flatMap, List.mem_map,
      List.mem_range]
    refine ⟨last, Nat.lt_succ_of_le hle, l.dropLast, ?_, hdecomp⟩
    refine ih (t - last) l.dropLast ?_ ?_
    · have := congrArg List.length hdecomp
      simp only [List.length_append, List.length_cons, List.length_nil] at this
      omega
    · omega

/-- The generated lists are pairwise distinct. -/
theorem generate_partitions_nodup (n : Nat) :
    ∀ t, (generate_partitions n t).Nodup := by
  induction n with
  | zero =>
    intro t
    cases t <;> simp [generate_partitions]
  | succ n ih =>
    intro t
    rw [generate_partitions, List.nodup_flatMap]
    constructor
    · intro last _
      exact (ih (t - last)).map (List.append_left_injective [last])
    · refine List.Pairwise.imp ?_ (List.nodup_range (t + 1))
      intro a b hab
      intro x hxa hxb
      simp only [List.mem_map] at hxa hxb
      obtain ⟨p, _, rfl⟩ := hxa
      obtain ⟨q, _, hq⟩ := hxb
      have : some b = some a := by
        rw [← List.getLast?_concat q, hq, List.getLast?_concat]
      exact hab (Option.some.inj this).symm

/-- Sums of a function over `List.range` agree with `Finset.range` sums. -/
theorem list_sum_map_range {M : Type} [AddCommMonoid M] (f : Nat → M) :
    ∀ n, ((List.range n).map f).sum = ∑ i ∈ Finset.range n, f i := by
  intro n
  induction n with
  | zero => simp
  | succ n ih =>
    rw [List.range_succ, List.map_append, List.sum_append,
      Finset.sum_range_succ, ih]
    simp

/-- Counting recurrence: the generator over `n + 1` stacks sums the counts of
the generator over `n` stacks for all subtotals. -/
theorem generate_partitions_length_step (n t : Nat) :
    (generate_partitions (n + 1) t).length
      = ∑ j ∈ Finset.range (t + 1), (generate_partitions n j).length := by
  rw [generate_partitions, List.length_flatMap]
  simp only [Function.comp_def, List.length_map]
  rw [list_sum_map_range (fun j => (generate_partitions n (t - j)).length) (t + 1)]
  have h2 := Finset.sum_range_reflect
    (fun j => (generate_partitions n j).length) (t + 1)
  simpa using h2

/-- Hockey-stick identity used for the stars-and-bars count. -/
theorem sum_range_choose_add (n : Nat) :
    ∀ t, ∑ j ∈ Finset.range (t + 1), (j + n).choose n = (t + n + 1).choose (n + 1) := by
  intro t
  induction t with
  | zero => simp
  | succ t ih =>
    rw [Finset.sum_range_succ, ih]
    have h1 : t + 1 + n + 1 = t + n + 1 + 1 := by omega
    have h2 : t + 1 + n = t + n + 1 := by omega
    rw [h1, h2, Nat.choose_succ_succ (t + n + 1) n]
    simp only [Nat.succ_eq_add_one]
    omega

/-- Stars and bars: the generator over `n + 1` stacks and total `t` produces
exactly `(t + n).choose n` lists. -/
theorem generate_partitions_length (n : Nat) :
    ∀ t, (generate_partitions (n + 1) t).length = (t + n).choose n := by
  induction n with
  | zero =>
    intro t
    rw [generate_partitions_length_step]
    have h0 : ∀ j ∈ Finset.range (t + 1),
        (generate_partitions 0 j).length = if j = 0 then 1 else 0 := by
      intro j _
      cases j <;> simp [generate_partitions]
    rw [Finset.sum_congr rfl h0]
    simp
  | succ n ih =>
    intro t
    rw [generate_partitions_length_step]
    calc ∑ j ∈ Finset.range (t + 1), (generate_partitions (n + 1) j).length
        = ∑ j ∈ Finset.range (t + 1), (j + n).choose n :=
          Finset.sum_congr rfl (fun j _ => ih j)
      _ = (t + n + 1).choose (n + 1) := sum_range_choose_add n t
      _ = (t + (n + 1)).choose (n + 1) := rfl

/-- C1: for every `num_slots ≥ 1` and every `total`, `generate_partitions`
returns exactly `C(total + num_slots - 1, num_slots - 1)` compositions, each
of length `num_slots` and sum `total` (entries are `Nat`, hence nonnegative),
with no duplicates and no omissions. -/
theorem generate_partitions_correct (n t : Nat) (hn : 1 ≤ n) :
    (generate_partitions n t).length = (t + n - 1).choose (n - 1) ∧
    (∀ l ∈ generate_partitions n t, l.length = n ∧ l.sum = t) ∧
    (generate_partitions n t).Nodup ∧
    (∀ l : List Nat, l.length = n → l.sum = t → l ∈ generate_partitions n t) := by
  obtain ⟨m, rfl⟩ : ∃ m, n = m + 1 := ⟨n - 1, by omega⟩
  refine ⟨?_, fun l hl => generate_partitions_sound (m + 1) t l hl,
    generate_partitions_nodup (m + 1) t,
    fun l h1 h2 => generate_partitions_complete (m + 1) t l h1 h2⟩
  have h1 : t + (m + 1) - 1 = t + m := by omega
  have h2 : m + 1 - 1 = m := by omega
  rw [h1, h2, generate_partitions_length m t]

/-- Witness for C1 at `num_slots = 2`, `total = 3`. -/
theorem generate_partitions_correct_witness :
    1 ≤ 2 ∧
    ((generate_partitions 2 3).length = (3 + 2 - 1).choose (2 - 1) ∧
    (∀ l ∈ generate_partitions 2 3, l.length = 2 ∧ l.sum = 3) ∧
    (generate_partitions 2 3).Nodup ∧
    (∀ l : List Nat, l.length = 2 → l.sum = 3 → l ∈ generate_partitions 2 3)) :=
  ⟨by decide, generate_partitions_correct 2 3 (by decide)⟩

/- ### The per-group selector -/

instance : Std.Antisymm ((· ≤ ·) : ℚ → ℚ → Prop) :=
  ⟨fun h1 h2 => le_antisymm h1 h2⟩

instance : Std.Antisymm ((· ≤ ·) : Nat → Nat → Prop) :=
  ⟨fun h1 h2 => Nat.le_antisymm h1 h2⟩

/-- Characterization of `List.min?` on rational lists. -/
theorem rat_min?_eq_some_iff {xs : List ℚ} {a : ℚ} :
    xs.min? = some a ↔ a ∈ xs ∧ ∀ b ∈ xs, a ≤ b :=
  List.min?_eq_some_iff (fun _ => le_refl _) min_choice (fun _ _ _ => le_min_iff)

/-- Characterization of `List.min?` on natural-number lists. -/
theorem nat_min?_eq_some_iff {xs : List Nat} {a : Nat} :
    xs.min? = some a ↔ a ∈ xs ∧ ∀ b ∈ xs, a ≤ b :=
  List.min?_eq_some_iff (fun _ => le_refl _) min_choice (fun _ _ _ => le_min_iff)

/-- The variance of any schedule is nonnegative (a sum of squares weighted by
counts, divided by a natural number). -/
theorem DosageSchedule.variance_nonneg (s : DosageSchedule) : 0 ≤ s.variance := by
  unfold DosageSchedule.variance
  apply div_nonneg
  · apply List.sum_nonneg
    intro x hx
    simp only [List.mem_map] at hx
    obtain ⟨p, _, rfl⟩ := hx
    positivity
  · positivity

/-- Membership in the pruned group: exactly the schedules of minimal variance,
and of minimal period among those. -/
theorem select_group_mem_iff {g : List DosageSchedule} {s : DosageSchedule} :
    s ∈ select_group g ↔
      s ∈ g ∧ (∀ u ∈ g, s.variance ≤ u.variance) ∧
      (∀ u ∈ g, u.variance = s.variance → s.period ≤ u.period) := by
  rcases h1 : (g.map DosageSchedule.variance).min? with _ | mv
  · rw [List.min?_eq_none_iff, List.map_eq_nil_iff] at h1
    subst h1
    simp [select_group]
  · obtain ⟨hmem, hmin⟩ := rat_min?_eq_some_iff.mp h1
    simp only [List.mem_map] at hmem
    obtain ⟨u0, hu0g, hu0v⟩ := hmem
    have hminv : ∀ u ∈ g, mv ≤ u.variance := fun u hu =>
      hmin _ (List.mem_map_of_mem _ hu)
    have hu0filter : u0 ∈ g.filter (fun s => s.variance = mv) := by
      simp [List.mem_filter, hu0g, hu0v]
    rcases h2 : ((g.filter (fun s => s.variance = mv)).map
        DosageSchedule.period).min? with _ | mp2
    · rw [List.min?_eq_none_iff, List.map_eq_nil_iff] at h2
      rw [h2] at hu0filter
      simp at hu0filter
    · obtain ⟨hmem2, hmin2⟩ := nat_min?_eq_some_iff.mp h2
      simp only [List.mem_map, List.mem_filter, decide_eq_true_eq] at hmem2
      obtain ⟨u1, ⟨hu1g, hu1v⟩, hu1p⟩ := hmem2
      have hmin2g : ∀ u ∈ g, u.variance = mv → mp2 ≤ u.period := by
        intro u hu huv
        apply hmin2
        apply List.mem_map_of_mem
        simp [List.mem_filter, hu, huv]
      have hsel : select_group g
          = (g.filter (fun s => s.variance = mv)).filter
              (fun s => s.period = mp2) := by
        simp only [select_group, h1, Option.elim, h2]
      rw [hsel]
      simp only [List.mem_filter, decide_eq_true_eq]
      constructor
      · rintro ⟨⟨hsg, hsv⟩, hsp⟩
        refine ⟨hsg, ?_, ?_⟩
        · intro u hu
          rw [hsv]
          exact hminv u hu
        · intro u hu huv
          rw [hsp]
          exact hmin2g u hu (huv.trans hsv)
      · rintro ⟨hsg, hsmin, hsper⟩
        have hsv : s.variance = mv :=
          le_antisymm (hu0v ▸ hsmin u0 hu0g) (hminv s hsg)
        refine ⟨⟨hsg, hsv⟩, ?_⟩
        have h3 : s.period ≤ u1.period :=
          hsper u1 hu1g (hu1v.trans hsv.symm)
        have h4 : mp2 ≤ s.period := hmin2g s hsg hsv
        omega

/-- Whatever the selector keeps was in the group. -/
theorem select_group_subset {g : List DosageSchedule} {s : DosageSchedule}
    (hs : s ∈ select_group g) : s ∈ g :=
  (select_group_mem_iff.mp hs).1

/-- A nonempty group prunes to a nonempty list (some schedule attains the
minimal variance, and among those some schedule attains the minimal period). -/
theorem select_group_ne_nil {g : List DosageSchedule} (hg : g ≠ []) :
    select_group g ≠ [] := by
  rcases h1 : (g.map DosageSchedule.variance).min? with _ | mv
  · rw [List.min?_eq_none_iff, List.map_eq_nil_iff] at h1
    exact absurd h1 hg
  · obtain ⟨hmem, hmin⟩ := rat_min?_eq_some_iff.mp h1
    simp only [List.mem_map] at hmem
    obtain ⟨u0, hu0g, hu0v⟩ := hmem
    have hminv : ∀ u ∈ g, mv ≤ u.variance := fun u hu =>
      hmin _ (List.mem_map_of_mem _ hu)
    have hu0filter : u0 ∈ g.filter (fun s => s.variance = mv) := by
      simp [List.mem_filter, hu0g, hu0v]
    rcases h2 : ((g.filter (fun s => s.variance = mv)).map
        DosageSchedule.period).min? with _ | mp2
    · rw [List.min?_eq_none_iff, List.map_eq_nil_iff] at h2
      rw [h2] at hu0filter
      simp at hu0filter
    · obtain ⟨hmem2, hmin2⟩ := nat_min?_eq_some_iff.mp h2
      simp only [List.mem_map, List.mem_filter, decide_eq_true_eq] at hmem2
      obtain ⟨u1, ⟨hu1g, hu1v⟩, hu1p⟩ := hmem2
      intro hnil
      have hu1sel : u1 ∈ select_group g := by
        rw [select_group_mem_iff]
        refine ⟨hu1g, ?_, ?_⟩
        · intro u hu
          rw [hu1v]
          exact hminv u hu
        · intro u hu huv
          rw [hu1p]
          apply hmin2
          apply List.mem_map_of_mem
          simp [List.mem_filter, hu, huv.trans hu1v]
      rw [hnil] at hu1sel
      simp at hu1sel

/-- Standard deviations compare like variances (≤). -/
theorem sqrt_variance_le_iff (s u : DosageSchedule) :
    Real.sqrt (s.variance : ℝ) ≤ Real.sqrt (u.variance : ℝ)
      ↔ s.variance ≤ u.variance := by
  rw [Real.sqrt_le_sqrt_iff (Rat.cast_nonneg.mpr u.variance_nonneg), Rat.cast_le]

/-- Standard deviations compare like variances (=). -/
theorem sqrt_variance_eq_iff (s u : DosageSchedule) :
    Real.sqrt (s.variance : ℝ) = Real.sqrt (u.variance : ℝ)
      ↔ s.variance = u.variance := by
  rw [Real.sqrt_inj (Rat.cast_nonneg.mpr s.variance_nonneg)
    (Rat.cast_nonneg.mpr u.variance_nonneg), Rat.cast_inj]

/-- Standard deviations compare like variances (<). -/
theorem sqrt_variance_lt_iff (s u : DosageSchedule) :
    Real.sqrt (s.variance : ℝ) < Real.sqrt (u.variance : ℝ)
      ↔ s.variance < u.variance := by
  rw [Real.sqrt_lt_sqrt_iff (Rat.cast_nonneg.mpr s.variance_nonneg), Rat.cast_lt]

/-- C2: within a mean-group, the selector retains exactly the schedules whose
standard deviation (`Real.sqrt` of the variance, as the source's `stddev`
computes) attains the group minimum and, among those, whose period attains
the minimum; consequently, a schedule beaten on stddev by a schedule of the
same mean is discarded, and a schedule beaten on period at equal mean and
stddev is discarded. -/
theorem selector_retains_min_stddev_then_min_period
    (pd : List ℚ) (mp : Nat) (m : ℚ) (s : DosageSchedule)
    (hs : s ∈ schedules_by_mean pd mp m) :
    (s ∈ select_group (schedules_by_mean pd mp m) ↔
      (∀ u ∈ schedules_by_mean pd mp m,
        Real.sqrt (s.variance : ℝ) ≤ Real.sqrt (u.variance : ℝ)) ∧
      (∀ u ∈ schedules_by_mean pd mp m,
        Real.sqrt (u.variance : ℝ) = Real.sqrt (s.variance : ℝ) →
          s.period ≤ u.period)) ∧
    (∀ u ∈ schedules_by_mean pd mp m,
      Real.sqrt (u.variance : ℝ) < Real.sqrt (s.variance : ℝ) →
        s ∉ select_group (schedules_by_mean pd mp m)) ∧
    (∀ u ∈ schedules_by_mean pd mp m,
      Real.sqrt (u.variance : ℝ) = Real.sqrt (s.variance : ℝ) →
        u.period < s.period →
          s ∉ select_group (schedules_by_mean pd mp m)) := by
  refine ⟨?_, ?_, ?_⟩
  · rw [select_group_mem_iff]
    constructor
    · rintro ⟨_, hv, hp⟩
      constructor
      · intro u hu
        rw [sqrt_variance_le_iff]
        exact hv u hu
      · intro u hu he
        exact hp u hu ((sqrt_variance_eq_iff u s).mp he)
    · rintro ⟨hv, hp⟩
      refine ⟨hs, ?_, ?_⟩
      · intro u hu
        exact (sqrt_variance_le_iff s u).mp (hv u hu)
      · intro u hu he
        exact hp u hu ((sqrt_variance_eq_iff u s).mpr he)
  · intro u hu hlt hsel
    have h3 := (select_group_mem_iff.mp hsel).2.1 u hu
    rw [← sqrt_variance_le_iff] at h3
    exact absurd hlt (not_lt.mpr h3)
  · intro u hu he hlt hsel
    have h3 := (select_group_mem_iff.mp hsel).2.2 u hu
      ((sqrt_variance_eq_iff u s).mp he)
    omega

/- ### The grouping and selection pipeline -/

/-- Membership in a mean-group. -/
theorem mem_schedules_by_mean {pd : List ℚ} {mp : Nat} {m : ℚ}
    {s : DosageSchedule} :
    s ∈ schedules_by_mean pd mp m ↔ s ∈ all_schedules pd mp ∧ s.mean = m := by
  simp [schedules_by_mean, List.mem_filter]

/-- The reachable means are exactly the means of the enumerated schedules. -/
theorem mem_reachable_means {pd : List ℚ} {mp : Nat} {m : ℚ} :
    m ∈ reachable_means pd mp ↔ ∃ s ∈ all_schedules pd mp, s.mean = m := by
  simp [reachable_means, List.mem_insertionSort, List.mem_dedup, List.mem_map]

/-- The reachable means are strictly increasing (sorted and duplicate-free). -/
theorem reachable_means_sorted (pd : List ℚ) (mp : Nat) :
    (reachable_means pd mp).Sorted (· < ·) := by
  have h1 : (reachable_means pd mp).Sorted (· ≤ ·) :=
    List.sorted_insertionSort _ _
  have h2 : (reachable_means pd mp).Nodup :=
    ((List.perm_insertionSort (· ≤ ·) _).nodup_iff).mpr (List.nodup_dedup _)
  exact h1.lt_of_le h2

/-- The group of any reachable mean is nonempty. -/
theorem schedules_by_mean_ne_nil {pd : List ℚ} {mp : Nat} {m : ℚ}
    (hm : m ∈ reachable_means pd mp) : schedules_by_mean pd mp m ≠ [] := by
  rw [mem_reachable_means] at hm
  obtain ⟨s, hs, hmean⟩ := hm
  intro hnil
  have h3 : s ∈ schedules_by_mean pd mp m := mem_schedules_by_mean.mpr ⟨hs, hmean⟩
  rw [hnil] at h3
  simp at h3

/-- When the selection loop succeeds, it returns one schedule per processed
mean, in order, provided each pruned group only contains schedules of its
own mean. -/
theorem select_all_ok_map_mean (groups : ℚ → List DosageSchedule) :
    ∀ (ms : List ℚ) (l : List DosageSchedule),
      (∀ m ∈ ms, ∀ s ∈ select_group (groups m), s.mean = m) →
      select_all groups ms = Except.ok l →
      l.map DosageSchedule.mean = ms := by
  intro ms
  induction ms with
  | nil =>
    intro l _ hok
    simp only [select_all, Except.ok.injEq] at hok
    subst hok
    rfl
  | cons m rest ih =>
    intro l hmeans hok
    rcases hsel : select_group (groups m) with _ | ⟨s0, _ | ⟨s1, tl⟩⟩
    · simp [select_all, hsel] at hok
    · rcases hrec : select_all groups rest with e2 | l2
      · simp [select_all, hsel, hrec] at hok
      · simp only [select_all, hsel, hrec, Except.ok.injEq] at hok
        subst hok
        have hm0 : s0.mean = m := by
          apply hmeans m (List.mem_cons_self m rest)
          rw [hsel]
          simp
        have hrest := ih l2
          (fun x hx u hu => hmeans x (List.mem_cons_of_mem m hx) u hu) hrec
        simp [List.map_cons, hm0, hrest]
    · simp [select_all, hsel] at hok

/-- When every pruned group is a single schedule, the selection loop succeeds. -/
theorem select_all_ok_of_all_single (groups : ℚ → List DosageSchedule) :
    ∀ ms : List ℚ,
      (∀ m ∈ ms, (select_group (groups m)).length = 1) →
      ∃ l, select_all groups ms = Except.ok l := by
  intro ms
  induction ms with
  | nil => exact fun _ => ⟨[], rfl⟩
  | cons m rest ih =>
    intro h
    obtain ⟨s0, hs0⟩ := List.length_eq_one.mp (h m (List.mem_cons_self m rest))
    obtain ⟨l2, hl2⟩ := ih (fun x hx => h x (List.mem_cons_of_mem m hx))
    exact ⟨s0 :: l2, by simp [select_all, hs0, hl2]⟩

/-- The selection loop fails exactly when some processed group prunes to more
than one schedule (given that no group prunes to the empty list). -/
theorem select_all_error_iff (groups : ℚ → List DosageSchedule) :
    ∀ ms : List ℚ,
      (∀ m ∈ ms, select_group (groups m) ≠ []) →
      ((∃ e, select_all groups ms = Except.error e) ↔
        ∃ m ∈ ms, 1 < (select_group (groups m)).length) := by
  intro ms
  induction ms with
  | nil =>
    intro _
    simp [select_all]
  | cons m rest ih =>
    intro h
    have hne := h m (List.mem_cons_self m rest)
    have ihrest := ih (fun x hx => h x (List.mem_cons_of_mem m hx))
    rcases hsel : select_group (groups m) with _ | ⟨s0, _ | ⟨s1, tl⟩⟩
    · exact absurd hsel hne
    · constructor
      · rintro ⟨e, he⟩
        rcases hrec : select_all groups rest with e2 | l2
        · obtain ⟨x, hx1, hx2⟩ := ihrest.mp ⟨e2, hrec⟩
          exact ⟨x, List.mem_cons_of_mem m hx1, hx2⟩
        · simp [select_all, hsel, hrec] at he
      · rintro ⟨x, hx1, hx2⟩
        rcases List.mem_cons.mp hx1 with rfl | hx3
        · rw [hsel] at hx2
          simp at hx2
        · obtain ⟨e2, he2⟩ := ihrest.mpr ⟨x, hx3, hx2⟩
          refine ⟨e2, ?_⟩
          simp [select_all, hsel, he2]
    · constructor
      · rintro ⟨e, he⟩
        refine ⟨m, List.mem_cons_self m rest, ?_⟩
        rw [hsel]
        simp
      · rintro ⟨x, hx1, hx2⟩
        refine ⟨"Found multiple dosage schedules with the same stdandard deviation and period.", ?_⟩
        simp [select_all, hsel]

/-- C3: a successful run returns exactly one schedule per distinct mean of
the enumerated collection, iterated in strictly ascending mean order: the
output's means are precisely the reachable means (every achievable mean
appears, no mean twice), and that list is sorted strictly increasingly. -/
theorem selector_one_per_mean_ascending (pd : List ℚ) (mp : Nat)
    (l : List DosageSchedule) (h : optimal_schedules pd mp = Except.ok l) :
    l.map DosageSchedule.mean = reachable_means pd mp ∧
    (reachable_means pd mp).Sorted (· < ·) ∧
    (∀ m : ℚ, m ∈ reachable_means pd mp ↔
      ∃ s ∈ all_schedules pd mp, s.mean = m) := by
  refine ⟨?_, reachable_means_sorted pd mp, fun m => mem_reachable_means⟩
  apply select_all_ok_map_mean (schedules_by_mean pd mp) (reachable_means pd mp) l
    ?_ h
  intro m _ s hs
  exact (mem_schedules_by_mean.mp (select_group_subset hs)).2

/-- Witness for C3: the run on dosage set `[0]` with max period 1. -/
theorem selector_one_per_mean_ascending_witness :
    optimal_schedules [0] 1 = Except.ok [⟨[0], [1]⟩] ∧
    ([(⟨[0], [1]⟩ : DosageSchedule)].map DosageSchedule.mean
        = reachable_means [0] 1 ∧
      (reachable_means [0] 1).Sorted (· < ·) ∧
      (∀ m : ℚ, m ∈ reachable_means [0] 1 ↔
        ∃ s ∈ all_schedules [0] 1, s.mean = m)) := by
  have hrun : optimal_schedules [0] 1 = Except.ok [⟨[0], [1]⟩] := by
    have h : generate_partitions 1 1 = [[1]] := by decide
    norm_num [optimal_schedules, reachable_means, schedules_by_mean,
      all_schedules, List.range', h, DosageSchedule.mean, DosageSchedule.period,
      DosageSchedule.variance, List.filter, List.insertionSort,
      List.orderedInsert, List.dedup, select_all, select_group, List.min?]
  exact ⟨hrun, selector_one_per_mean_ascending [0] 1 [⟨[0], [1]⟩] hrun⟩

/-- C5: the run fails (with the source's `RuntimeError`, carrying no partial
result) exactly when some mean-group prunes to more than one schedule; when
every mean-group prunes to exactly one schedule, the run succeeds. -/
theorem ambiguous_optimum_halts (pd : List ℚ) (mp : Nat) :
    ((∃ e, optimal_schedules pd mp = Except.error e) ↔
      ∃ m ∈ reachable_means pd mp,
        1 < (select_group (schedules_by_mean pd mp m)).length) ∧
    ((∀ m ∈ reachable_means pd mp,
        (select_group (schedules_by_mean pd mp m)).length = 1) →
      ∃ l, optimal_schedules pd mp = Except.ok l) := by
  constructor
  · apply select_all_error_iff (schedules_by_mean pd mp) (reachable_means pd mp)
    intro m hm
    exact select_group_ne_nil (schedules_by_mean_ne_nil hm)
  · intro h
    exact select_all_ok_of_all_single (schedules_by_mean pd mp)
      (reachable_means pd mp) h

/-- Witness for C5: instantiation at dosage set `[0]`, max period 1. -/
theorem ambiguous_optimum_halts_witness :
    ((∃ e, optimal_schedules [0] 1 = Except.error e) ↔
      ∃ m ∈ reachable_means [0] 1,
        1 < (select_group (schedules_by_mean [0] 1 m)).length) ∧
    ((∀ m ∈ reachable_means [0] 1,
        (select_group (schedules_by_mean [0] 1 m)).length = 1) →
      ∃ l, optimal_schedules [0] 1 = Except.ok l) :=
  ambiguous_optimum_halts [0] 1

/-- Witness for C2: the singleton group of mean 0 for dosage set `[0]`,
max period 1. -/
theorem selector_retains_min_stddev_then_min_period_witness :
    (⟨[0], [1]⟩ : DosageSchedule) ∈ schedules_by_mean [0] 1 0 ∧
    (((⟨[0], [1]⟩ : DosageSchedule) ∈ select_group (schedules_by_mean [0] 1 0) ↔
      (∀ u ∈ schedules_by_mean [0] 1 0,
        Real.sqrt (((⟨[0], [1]⟩ : DosageSchedule).variance : ℝ))
          ≤ Real.sqrt ((u.variance : ℝ))) ∧
      (∀ u ∈ schedules_by_mean [0] 1 0,
        Real.sqrt ((u.variance : ℝ))
            = Real.sqrt (((⟨[0], [1]⟩ : DosageSchedule).variance : ℝ)) →
          (⟨[0], [1]⟩ : DosageSchedule).period ≤ u.period)) ∧
    (∀ u ∈ schedules_by_mean [0] 1 0,
      Real.sqrt ((u.variance : ℝ))
          < Real.sqrt (((⟨[0], [1]⟩ : DosageSchedule).variance : ℝ)) →
        (⟨[0], [1]⟩ : DosageSchedule) ∉ select_group (schedules_by_mean [0] 1 0)) ∧
    (∀ u ∈ schedules_by_mean [0] 1 0,
      Real.sqrt ((u.variance : ℝ))
          = Real.sqrt (((⟨[0], [1]⟩ : DosageSchedule).variance : ℝ)) →
        u.period < (⟨[0], [1]⟩ : DosageSchedule).period →
          (⟨[0], [1]⟩ : DosageSchedule) ∉ select_group (schedules_by_mean [0] 1 0))) := by
  have hmem : (⟨[0], [1]⟩ : DosageSchedule) ∈ schedules_by_mean [0] 1 0 := by
    have h : generate_partitions 1 1 = [[1]] := by decide
    norm_num [schedules_by_mean, all_schedules, List.range', h,
      DosageSchedule.mean, DosageSchedule.period, List.filter]
  exact ⟨hmem,
    selector_retains_min_stddev_then_min_period [0] 1 0 ⟨[0], [1]⟩ hmem⟩

/-- C6: end-to-end run on dosage set `{0, 1}` with max period 2: the
enumeration produces the compositions `(1,0), (0,1)` for period 1 and
`(2,0), (1,1), (0,2)` for period 2; the reachable means are exactly
`0, 1/2, 1`; and the optimal schedules for those means have periods
`1, 2, 1` and standard deviations `0, 1/2, 0`. -/
theorem end_to_end_dosage01_period2 :
    generate_partitions 2 1 = [[1, 0], [0, 1]] ∧
    generate_partitions 2 2 = [[2, 0], [1, 1], [0, 2]] ∧
    reachable_means [0, 1] 2 = [0, 1/2, 1] ∧
    optimal_schedules [0, 1] 2
      = Except.ok [⟨[0, 1], [1, 0]⟩, ⟨[0, 1], [1, 1]⟩, ⟨[0, 1], [0, 1]⟩] ∧
    [(⟨[0, 1], [1, 0]⟩ : DosageSchedule), ⟨[0, 1], [1, 1]⟩,
        ⟨[0, 1], [0, 1]⟩].map DosageSchedule.mean = [0, 1/2, 1] ∧
    [(⟨[0, 1], [1, 0]⟩ : DosageSchedule), ⟨[0, 1], [1, 1]⟩,
        ⟨[0, 1], [0, 1]⟩].map DosageSchedule.period = [1, 2, 1] ∧
    [(⟨[0, 1], [1, 0]⟩ : DosageSchedule), ⟨[0, 1], [1, 1]⟩,
        ⟨[0, 1], [0, 1]⟩].map (fun s => Real.sqrt ((s.variance : ℝ)))
      = [0, 1/2, 0] := by
  have h1 : generate_partitions 2 1 = [[1, 0], [0, 1]] := by decide
  have h2 : generate_partitions 2 2 = [[2, 0], [1, 1], [0, 2]] := by decide
  refine ⟨h1, h2, ?_, ?_, ?_, ?_, ?_⟩
  · norm_num [reachable_means, all_schedules, List.range', h1, h2,
      DosageSchedule.mean, DosageSchedule.period, List.insertionSort,
      List.orderedInsert, List.dedup_cons_of_mem, List.dedup_cons_of_not_mem]
  · norm_num [optimal_schedules, reachable_means, schedules_by_mean,
      all_schedules, List.range', h1, h2, DosageSchedule.mean,
      DosageSchedule.period, DosageSchedule.variance, List.filter,
      List.insertionSort, List.orderedInsert, List.dedup_cons_of_mem,
      List.dedup_cons_of_not_mem, select_all, select_group, List.min?]
  · norm_num [DosageSchedule.mean, DosageSchedule.period]
  · norm_num [DosageSchedule.period]
  · have hv1 : (⟨[0, 1], [1, 0]⟩ : DosageSchedule).variance = 0 := by
      norm_num [DosageSchedule.variance, DosageSchedule.mean,
        DosageSchedule.period]
    have hv2 : (⟨[0, 1], [1, 1]⟩ : DosageSchedule).variance = 1/4 := by
      norm_num [DosageSchedule.variance, DosageSchedule.mean,
        DosageSchedule.period]
    have hv3 : (⟨[0, 1], [0, 1]⟩ : DosageSchedule).variance = 0 := by
      norm_num [DosageSchedule.variance, DosageSchedule.mean,
        DosageSchedule.period]
    simp only [List.map_cons, List.map_nil, hv1, hv2, hv3]
    have hs0 : Real.sqrt (((0 : ℚ) : ℝ)) = 0 := by
      norm_num [Real.sqrt_zero]
    have hs4 : Real.sqrt ((((1 : ℚ)/4 : ℚ) : ℝ)) = 1/2 := by
      have hc : (((1 : ℚ)/4 : ℚ) : ℝ) = (1/2 : ℝ) ^ 2 := by
        push_cast
        norm_num
      rw [hc, Real.sqrt_sq (by norm_num : (0 : ℝ) ≤ 1/2)]
    rw [hs0, hs4]

/- ### Derived quantities of a schedule -/

/-- Characterization of `List.max?` on rational lists. -/
theorem rat_max?_eq_some_iff {xs : List ℚ} {a : ℚ} :
    xs.max? = some a ↔ a ∈ xs ∧ ∀ b ∈ xs, b ≤ a :=
  List.max?_eq_some_iff (fun _ => le_refl _) max_choice (fun _ _ _ => max_le_iff)

/-- A sum weighted by nonnegative counts stays between `lo` and `hi` times
the total weight whenever every positively-weighted value does. -/
theorem list_weighted_sum_bounds (lo hi : ℚ) :
    ∀ l : List (ℚ × Nat),
      (∀ p ∈ l, p.2 ≠ 0 → lo ≤ p.1 ∧ p.1 ≤ hi) →
      lo * ((l.map (fun p => ((p.2 : ℚ)))).sum)
          ≤ (l.map (fun p => p.1 * (p.2 : ℚ))).sum ∧
        (l.map (fun p => p.1 * (p.2 : ℚ))).sum
          ≤ hi * ((l.map (fun p => ((p.2 : ℚ)))).sum) := by
  intro l
  induction l with
  | nil =>
    intro _
    simp
  | cons p l ih =>
    intro h
    have hhead : lo * ((p.2 : ℚ)) ≤ p.1 * ((p.2 : ℚ)) ∧
        p.1 * ((p.2 : ℚ)) ≤ hi * ((p.2 : ℚ)) := by
      rcases Nat.eq_zero_or_pos p.2 with hz | hpos
      · simp [hz]
      · have hb := h p (List.mem_cons_self p l) (Nat.pos_iff_ne_zero.mp hpos)
        constructor
        · exact mul_le_mul_of_nonneg_right hb.1 (by positivity)
        · exact mul_le_mul_of_nonneg_right hb.2 (by positivity)
    have htail := ih (fun q hq => h q (List.mem_cons_of_mem p hq))
    simp only [List.map_cons, List.sum_cons, mul_add]
    exact ⟨add_le_add hhead.1 htail.1, add_le_add hhead.2 htail.2⟩

/-- C7: for a well-formed schedule (counts list matching the dosage list)
with at least one nonzero count, the period equals the sum of the counts, and
the mean lies in the closed interval from the smallest to the largest dosage
value that carries a nonzero count. -/
theorem mean_within_dosage_range (s : DosageSchedule) (lo hi : ℚ)
    (hlen : s.counts.length = s.possible_dosages.length)
    (hlo : (((s.possible_dosages.zip s.counts).filter
        (fun p => p.2 ≠ 0)).map Prod.fst).min? = some lo)
    (hhi : (((s.possible_dosages.zip s.counts).filter
        (fun p => p.2 ≠ 0)).map Prod.fst).max? = some hi) :
    s.period = s.counts.sum ∧ lo ≤ s.mean ∧ s.mean ≤ hi := by
  obtain ⟨hlomem, hlole⟩ := rat_min?_eq_some_iff.mp hlo
  obtain ⟨himem, hile⟩ := rat_max?_eq_some_iff.mp hhi
  have hsnd : (s.possible_dosages.zip s.counts).map Prod.snd = s.counts :=
    List.map_snd_zip _ _ (le_of_eq hlen)
  have hweights :
      ((s.possible_dosages.zip s.counts).map (fun p => ((p.2 : ℚ)))).sum
        = ((s.counts.sum : ℚ)) := by
    have hcomp : (s.possible_dosages.zip s.counts).map (fun p => ((p.2 : ℚ)))
        = ((s.possible_dosages.zip s.counts).map Prod.snd).map
            (Nat.cast : Nat → ℚ) := by
      rw [List.map_map]
      rfl
    rw [hcomp, hsnd, ← Nat.cast_list_sum]
  simp only [List.mem_map, List.mem_filter, decide_eq_true_eq] at hlomem
  obtain ⟨p0, ⟨hp0zip, hp0c⟩, hp0fst⟩ := hlomem
  have hperiodpos : 0 < s.counts.sum := by
    rcases Nat.eq_zero_or_pos s.counts.sum with hz | hpos
    · exfalso
      have hp0mem : p0.2 ∈ s.counts := by
        rw [← hsnd]
        exact List.mem_map_of_mem _ hp0zip
      exact hp0c (List.sum_eq_zero_iff.mp hz _ hp0mem)
    · exact hpos
  have hPQ : (0 : ℚ) < ((s.period : ℚ)) := by
    have hper : s.period = s.counts.sum := rfl
    rw [hper]
    exact_mod_cast hperiodpos
  have hball : ∀ p ∈ s.possible_dosages.zip s.counts,
      p.2 ≠ 0 → lo ≤ p.1 ∧ p.1 ≤ hi := by
    intro p hp hpc
    have hfst : p.1 ∈ ((s.possible_dosages.zip s.counts).filter
        (fun q => q.2 ≠ 0)).map Prod.fst := by
      apply List.mem_map_of_mem
      simp [List.mem_filter, hp, hpc]
    exact ⟨hlole _ hfst, hile _ hfst⟩
  have hb := list_weighted_sum_bounds lo hi (s.possible_dosages.zip s.counts) hball
  have hWP : ((s.possible_dosages.zip s.counts).map (fun p => ((p.2 : ℚ)))).sum
      = ((s.period : ℚ)) := hweights
  refine ⟨rfl, ?_, ?_⟩
  · rw [DosageSchedule.mean, le_div_iff₀ hPQ, ← hWP]
    exact hb.1
  · rw [DosageSchedule.mean, div_le_iff₀ hPQ, ← hWP]
    exact hb.2

/-- Witness for C7: the schedule over `[0, 1]` with counts `[1, 1]`. -/
theorem mean_within_dosage_range_witness :
    (⟨[0, 1], [1, 1]⟩ : DosageSchedule).counts.length
        = (⟨[0, 1], [1, 1]⟩ : DosageSchedule).possible_dosages.length ∧
    ((((⟨[0, 1], [1, 1]⟩ : DosageSchedule).possible_dosages.zip
        (⟨[0, 1], [1, 1]⟩ : DosageSchedule).counts).filter
        (fun p => p.2 ≠ 0)).map Prod.fst).min? = some 0 ∧
    ((((⟨[0, 1], [1, 1]⟩ : DosageSchedule).possible_dosages.zip
        (⟨[0, 1], [1, 1]⟩ : DosageSchedule).counts).filter
        (fun p => p.2 ≠ 0)).map Prod.fst).max? = some 1 ∧
    ((⟨[0, 1], [1, 1]⟩ : DosageSchedule).period
        = (⟨[0, 1], [1, 1]⟩ : DosageSchedule).counts.sum ∧
      (0 : ℚ) ≤ (⟨[0, 1], [1, 1]⟩ : DosageSchedule).mean ∧
      (⟨[0, 1], [1, 1]⟩ : DosageSchedule).mean ≤ 1) := by
  have hlen : (⟨[0, 1], [1, 1]⟩ : DosageSchedule).counts.length
      = (⟨[0, 1], [1, 1]⟩ : DosageSchedule).possible_dosages.length := by
    decide
  have hlo : ((((⟨[0, 1], [1, 1]⟩ : DosageSchedule).possible_dosages.zip
      (⟨[0, 1], [1, 1]⟩ : DosageSchedule).counts).filter
      (fun p => p.2 ≠ 0)).map Prod.fst).min? = some 0 := by
    norm_num [List.filter, List.min?, min_def]
  have hhi : ((((⟨[0, 1], [1, 1]⟩ : DosageSchedule).possible_dosages.zip
      (⟨[0, 1], [1, 1]⟩ : DosageSchedule).counts).filter
      (fun p => p.2 ≠ 0)).map Prod.fst).max? = some 1 := by
    norm_num [List.filter, List.max?, max_def]
  exact ⟨hlen, hlo, hhi,
    mean_within_dosage_range ⟨[0, 1], [1, 1]⟩ 0 1 hlen hlo hhi⟩

/- ### The schedule encoding -/

/-- Folding string concatenation from `init` appends the join of the list. -/
theorem string_join_aux : ∀ (l : List String) (init : String),
    l.foldl (fun r s => r ++ s) init = init ++ String.join l
  | [], init => by
    show init = init ++ String.join []
    rw [show String.join [] = "" from rfl, String.append_empty]
  | x :: xs, init => by
    show xs.foldl (fun r s => r ++ s) (init ++ x) = init ++ String.join (x :: xs)
    rw [string_join_aux xs (init ++ x)]
    have hx : String.join (x :: xs) = x ++ String.join xs := by
      show xs.foldl (fun r s => r ++ s) ("" ++ x) = x ++ String.join xs
      rw [string_join_aux xs ("" ++ x), String.empty_append]
    rw [hx, String.append_assoc]

/-- `String.join` of a `cons`. -/
theorem string_join_cons (x : String) (xs : List String) :
    String.join (x :: xs) = x ++ String.join xs := by
  show xs.foldl (fun r s => r ++ s) ("" ++ x) = x ++ String.join xs
  rw [string_join_aux xs ("" ++ x), String.empty_append]

/-- `String.join` distributes over list append. -/
theorem string_join_append (a b : List String) :
    String.join (a ++ b) = String.join a ++ String.join b := by
  induction a with
  | nil =>
    show String.join b = String.join [] ++ String.join b
    rw [show String.join [] = "" from rfl, String.empty_append]
  | cons x xs ih =>
    rw [List.cons_append, string_join_cons, ih, string_join_cons,
      String.append_assoc]

/-- The encoder's value on the dosage 0. -/
theorem fraction_to_dosage_string_zero : fraction_to_dosage_string 0 = "0" := by
  rw [fraction_to_dosage_string, if_pos]
  · norm_num [Rat.num]
    decide
  · norm_num [Rat.den, Rat.num]

/-- The encoder's value on the dosage 1/2. -/
theorem fraction_to_dosage_string_half :
    fraction_to_dosage_string (1/2) = "h" := by
  rw [fraction_to_dosage_string, if_neg, if_pos rfl]
  norm_num [Rat.den]

/-- The encoder's value on the dosage 2. -/
theorem fraction_to_dosage_string_two : fraction_to_dosage_string 2 = "2" := by
  rw [fraction_to_dosage_string, if_pos]
  · norm_num [Rat.num]
    decide
  · norm_num [Rat.den, Rat.num]

/-- C8: the encoding concatenates, pair by pair in the stored (ascending)
dosage order, the per-dosage symbol repeated `count` times; a zero-count
dosage contributes nothing (removing it leaves the encoding unchanged); and
the schedule over `{0, 1/2, 1, 2}` with counts `(1, 2, 0, 1)` encodes as the
4-character string `"0hh2"`: one `"0"`, two half-dose symbols `"h"`, one
`"2"`, nothing for the zero-count dosage 1. -/
theorem schedule_encoding (pd1 pd2 : List ℚ) (c1 c2 : List Nat) (d : ℚ)
    (hlen : pd1.length = c1.length) :
    (⟨pd1 ++ d :: pd2, c1 ++ 0 :: c2⟩ : DosageSchedule).schedule_as_string
      = (⟨pd1 ++ pd2, c1 ++ c2⟩ : DosageSchedule).schedule_as_string ∧
    (⟨[0, 1/2, 1, 2], [1, 2, 0, 1]⟩ : DosageSchedule).schedule_as_string
      = "0hh2" ∧
    ((⟨[0, 1/2, 1, 2], [1, 2, 0, 1]⟩ :
        DosageSchedule).schedule_as_string).length = 4 ∧
    ((⟨[0, 1/2, 1, 2], [1, 2, 0, 1]⟩ :
        DosageSchedule).schedule_as_string).toList.count '0' = 1 ∧
    ((⟨[0, 1/2, 1, 2], [1, 2, 0, 1]⟩ :
        DosageSchedule).schedule_as_string).toList.count 'h' = 2 ∧
    ((⟨[0, 1/2, 1, 2], [1, 2, 0, 1]⟩ :
        DosageSchedule).schedule_as_string).toList.count '2' = 1 := by
  have hstr : (⟨[0, 1/2, 1, 2], [1, 2, 0, 1]⟩ :
      DosageSchedule).schedule_as_string = "0hh2" := by
    show String.join ((([((0 : ℚ), (1 : Nat)), (1/2, 2), (1, 0),
        (2, 1)]).filter (fun p => p.2 ≠ 0)).map
      (fun p => repeat_string p.2 (fraction_to_dosage_string p.1))) = "0hh2"
    norm_num [List.filter, fraction_to_dosage_string_zero,
      fraction_to_dosage_string_half, fraction_to_dosage_string_two,
      repeat_string, string_join_cons]
    decide
  refine ⟨?_, hstr, by rw [hstr]; decide, by rw [hstr]; decide,
    by rw [hstr]; decide, by rw [hstr]; decide⟩
  simp only [DosageSchedule.schedule_as_string, List.zip_append hlen,
    List.zip_cons_cons, List.filter_append, List.filter_cons, List.map_append,
    string_join_append]
  norm_num

/-- Witness for C8 at `pd1 = [0]`, `d = 1`, `pd2 = [2]`, `c1 = [1]`,
`c2 = [3]`. -/
theorem schedule_encoding_witness :
    ([(0 : ℚ)] : List ℚ).length = ([1] : List Nat).length ∧
    ((⟨[(0 : ℚ)] ++ (1 : ℚ) :: [(2 : ℚ)], [1] ++ 0 :: [3]⟩ :
        DosageSchedule).schedule_as_string
      = (⟨[(0 : ℚ)] ++ [(2 : ℚ)], [1] ++ [3]⟩ :
        DosageSchedule).schedule_as_string ∧
    (⟨[0, 1/2, 1, 2], [1, 2, 0, 1]⟩ : DosageSchedule).schedule_as_string
      = "0hh2" ∧
    ((⟨[0, 1/2, 1, 2], [1, 2, 0, 1]⟩ :
        DosageSchedule).schedule_as_string).length = 4 ∧
    ((⟨[0, 1/2, 1, 2], [1, 2, 0, 1]⟩ :
        DosageSchedule).schedule_as_string).toList.count '0' = 1 ∧
    ((⟨[0, 1/2, 1, 2], [1, 2, 0, 1]⟩ :
        DosageSchedule).schedule_as_string).toList.count 'h' = 2 ∧
    ((⟨[0, 1/2, 1, 2], [1, 2, 0, 1]⟩ :
        DosageSchedule).schedule_as_string).toList.count '2' = 1) :=
  ⟨by decide, schedule_encoding [0] [2] [1] [3] 1 (by decide)⟩

/-- C9: the encoder is total: on every rational dosage one of the five rules
applies (single-digit integer, `"h"`, `"k"`, `"a"`, or the parenthesized
fallback) and the result is never the empty string, so no unencodable-dosage
error is reachable. -/
theorem fraction_to_dosage_string_total (q : ℚ) :
    (fraction_to_dosage_string q = toString q.num ∨
     fraction_to_dosage_string q = "h" ∨
     fraction_to_dosage_string q = "k" ∨
     fraction_to_dosage_string q = "a" ∨
     fraction_to_dosage_string q = "(" ++ fraction_str q ++ ")") ∧
    fraction_to_dosage_string q ≠ "" := by
  unfold fraction_to_dosage_string
  split_ifs with h1 h2 h3 h4
  · refine ⟨Or.inl rfl, ?_⟩
    obtain ⟨hden, hge, hle⟩ := h1
    interval_cases h : q.num <;> decide
  · exact ⟨Or.inr (Or.inl rfl), by decide⟩
  · exact ⟨Or.inr (Or.inr (Or.inl rfl)), by decide⟩
  · exact ⟨Or.inr (Or.inr (Or.inr (Or.inl rfl))), by decide⟩
  · refine ⟨Or.inr (Or.inr (Or.inr (Or.inr rfl))), ?_⟩
    intro hc
    have h5 := congrArg String.length hc
    rw [String.length_append, String.length_append] at h5
    have h6 : ("(" : String).length = 1 := by decide
    have h7 : (")" : String).length = 1 := by decide
    have h8 : ("" : String).length = 0 := by decide
    omega

/-- Witness for C9 at the dosage 7/3 (no symbol rule matches; the fallback
parenthesizes the exact fraction). -/
theorem fraction_to_dosage_string_total_witness :
    (fraction_to_dosage_string (7/3) = toString ((7 : ℚ)/3).num ∨
     fraction_to_dosage_string (7/3) = "h" ∨
     fraction_to_dosage_string (7/3) = "k" ∨
     fraction_to_dosage_string (7/3) = "a" ∨
     fraction_to_dosage_string (7/3) = "(" ++ fraction_str (7/3) ++ ")") ∧
    fraction_to_dosage_string (7/3) ≠ "" :=
  fraction_to_dosage_string_total (7/3)

/- ### Division safety in the pipeline -/

/-- C10: every schedule built by the enumeration pipeline has a period
between 1 and `max_period`, so the divisions by the period inside `mean` and
`stddev` are by a nonzero number (the partial `mean?`/`variance?` are
defined); by contrast a schedule built from an all-zero or empty composition
has period 0, where Python's `mean`/`stddev` raise `ZeroDivisionError`
(`mean?`/`variance?` are `none`). -/
theorem pipeline_period_positive (pd : List ℚ) (mp : Nat) (s : DosageSchedule)
    (hs : s ∈ all_schedules pd mp) :
    (1 ≤ s.period ∧ s.period ≤ mp ∧
      s.mean? = some s.mean ∧ s.variance? = some s.variance) ∧
    (∀ (pd2 : List ℚ) (k : Nat),
      (⟨pd2, List.replicate k 0⟩ : DosageSchedule).period = 0 ∧
      (⟨pd2, List.replicate k 0⟩ : DosageSchedule).mean? = none ∧
      (⟨pd2, List.replicate k 0⟩ : DosageSchedule).variance? = none) := by
  constructor
  · simp only [all_schedules, List.mem_flatMap, List.mem_map,
      List.mem_range'_1] at hs
    obtain ⟨p, ⟨hp1, hp2⟩, partition, hpart, rfl⟩ := hs
    have hsum := (generate_partitions_sound pd.length p partition hpart).2
    have hper : (⟨pd, partition⟩ : DosageSchedule).period = p := hsum
    have hne : (⟨pd, partition⟩ : DosageSchedule).period ≠ 0 := by omega
    refine ⟨by omega, by omega, ?_, ?_⟩
    · simp [DosageSchedule.mean?, hne]
    · simp [DosageSchedule.variance?, hne]
  · intro pd2 k
    have hzero : (⟨pd2, List.replicate k 0⟩ : DosageSchedule).period = 0 := by
      simp [DosageSchedule.period, List.sum_replicate]
    refine ⟨hzero, ?_, ?_⟩
    · simp [DosageSchedule.mean?, hzero]
    · simp [DosageSchedule.variance?, hzero]

/-- Witness for C10 at dosage set `[0]`, max period 1. -/
theorem pipeline_period_positive_witness :
    (⟨[0], [1]⟩ : DosageSchedule) ∈ all_schedules [0] 1 ∧
    ((1 ≤ (⟨[0], [1]⟩ : DosageSchedule).period ∧
      (⟨[0], [1]⟩ : DosageSchedule).period ≤ 1 ∧
      (⟨[0], [1]⟩ : DosageSchedule).mean?
          = some (⟨[0], [1]⟩ : DosageSchedule).mean ∧
      (⟨[0], [1]⟩ : DosageSchedule).variance?
          = some (⟨[0], [1]⟩ : DosageSchedule).variance) ∧
    (∀ (pd2 : List ℚ) (k : Nat),
      (⟨pd2, List.replicate k 0⟩ : DosageSchedule).period = 0 ∧
      (⟨pd2, List.replicate k 0⟩ : DosageSchedule).mean? = none ∧
      (⟨pd2, List.replicate k 0⟩ : DosageSchedule).variance? = none)) := by
  have hmem : (⟨[0], [1]⟩ : DosageSchedule) ∈ all_schedules [0] 1 := by
    have h : generate_partitions 1 1 = [[1]] := by decide
    simp [all_schedules, List.range', h]
  exact ⟨hmem, pipeline_period_positive [0] 1 ⟨[0], [1]⟩ hmem⟩

/- ### Construction -/

/-- C4 counterexample: the source constructor accepts a composition whose
length (3) differs from the dosage set's cardinality (1) and succeeds — there
is no fail-fast length check anywhere in the source — whereas the spec's
fail-fast constructor rejects the same input with `InvalidSchedule`. -/
theorem construct_no_length_check :
    ([1, 2, 3] : List Nat).length ≠ ([(0 : ℚ)] : List ℚ).length ∧
    DosageSchedule.construct [(0 : ℚ)] [1, 2, 3]
      = Except.ok ⟨[(0 : ℚ)], [1, 2, 3]⟩ ∧
    DosageSchedule.construct_checked_spec [(0 : ℚ)] [1, 2, 3]
      = Except.error "InvalidSchedule" := by
  refine ⟨by decide, rfl, ?_⟩
  rw [DosageSchedule.construct_checked_spec, if_neg]
  decide

/-- C4 amended: the source constructor performs no validation at all —
construction succeeds for every pair of a dosage list and a count list,
matching lengths or not; no `InvalidSchedule` condition exists. -/
theorem construct_always_succeeds (pd : List ℚ) (counts : List Nat) :
    DosageSchedule.construct pd counts = Except.ok ⟨pd, counts⟩ := rfl
